import Mathlib

/-
Verification development for the laserchicken feature-extractor core.

The numeric model is exact rational arithmetic (ℚ) standing for the ideal
real arithmetic that the floating-point code approximates.  Externally
supplied routines (numpy eigendecomposition) are treated as parameters;
externally defined helpers of the repository that are not part of the
extractor sources (the point-cloud accessor, the masked ragged packing
get_xyz, the volume descriptors) are modelled from the specification and
are marked as such in their doc comments.  A floating NaN produced by a
0/0 division is modelled as `Option.none` in the relevant codomains.
-/

namespace Laserchicken

/-- A 3-d position, component 0 = x, 1 = y, 2 = z. -/
abbrev Point3 := Fin 3 → ℚ

/-- Modelled from the spec: the point-cloud accessor contract.  A point cloud
maps the attribute names x, y, z to flat ordered arrays, index-aligned; we
model each data array as a total index function (out-of-range access is a
caller contract violation that no claim exercises). -/
structure PointCloud where
  x : ℕ → ℚ
  y : ℕ → ℚ
  z : ℕ → ℚ

/-- Position of point `i` of the cloud as an (x, y, z) triple. -/
def PointCloud.pos (pc : PointCloud) (i : ℕ) : Point3 :=
  fun j => if j = 0 then pc.x i else if j = 1 then pc.y i else pc.z i

/-- Modelled from the spec: the volume descriptor collaborator
(volume_specification is not among the sources): a tagged variant
{Sphere(radius), InfiniteCylinder(radius)} exposing a type discriminator
string and the radius parameter.  The cylinder tag is the exact string the
echo-ratio source compares against. -/
inductive Volume where
  | sphere (radius : ℚ)
  | infiniteCylinder (radius : ℚ)
deriving DecidableEq

/-- Type discriminator string of a volume descriptor. -/
def Volume.TYPE : Volume → String
  | .sphere _ => "sphere"
  | .infiniteCylinder _ => "infinite cylinder"

/-- Radius parameter of a volume descriptor. -/
def Volume.radius : Volume → ℚ
  | .sphere r => r
  | .infiniteCylinder r => r

/-- Squared Euclidean distance between two positions, as computed by
`np.sum((xyz - xyz0) ** 2, 1)` in the echo-ratio source. -/
def sqDist (p q : Point3) : ℚ :=
  (p 0 - q 0) ^ 2 + (p 1 - q 1) ^ 2 + (p 2 - q 2) ^ 2

/-- Numpy true division: `a / b` is the exact quotient unless `b = 0`, in
which case the float result is NaN, modelled as `none`. -/
def npTrueDiv (a b : ℚ) : Option ℚ :=
  if b = 0 then none else some (a / b)

/-- EchoRatioFeatureExtractor.extract, translated from
echo_ratio_feature_extractor.py.  The three ValueError guards are modelled
as `Except.error` with the exact source messages; the returned feature value
is `n_sphere / n_cylinder * 100.`, NaN (`none`) when the cylinder
neighborhood is empty. -/
def echoRatioExtract (pc : PointCloud) (nb : List ℕ) (tpc : Option PointCloud)
    (ti : Option ℕ) (vol : Volume) : Except String (Option ℚ) :=
  if vol.TYPE ≠ "infinite cylinder" then Except.error "The volume must be a cylinder"
  else
    match tpc with
    | none => Except.error "Target point cloud required"
    | some t =>
      match ti with
      | none => Except.error "Target point index required"
      | some i =>
        let nCylinder : ℕ := nb.length
        let xyz0 := t.pos i
        let nSphere : ℕ :=
          (nb.filter fun k => decide (sqDist (pc.pos k) xyz0 ≤ vol.radius ^ 2)).length
        Except.ok ((npTrueDiv (nSphere : ℚ) (nCylinder : ℚ)).map (fun q => q * 100))

/-- Ascending sort, as `np.sort` produces on one axis. -/
def npSortAsc (l : List ℚ) : List ℚ :=
  List.insertionSort (· ≤ ·) l

/-- Linear interpolation of the sorted array `values` at fractional rank
`idx`: the score is `values[i]` when `idx` is the integer `i`, and otherwise
the convex combination `values[i] * (i + 1 - idx) + values[i + 1] * (idx - i)`
with `i = floor idx`.  This is the interpolation_method = fraction branch of
scipy.stats.scoreatpercentile (an external dependency, modelled from its
documented semantics; `idx` is nonnegative at every call site). -/
def interpAt (values : List ℚ) (idx : ℚ) : ℚ :=
  let i : ℕ := (⌊idx⌋).toNat
  if (i : ℚ) = idx then values.getD i 0
  else values.getD i 0 * ((i : ℚ) + 1 - idx) + values.getD (i + 1) 0 * (idx - (i : ℚ))

/-- scipy.stats.scoreatpercentile on a rational array (external dependency,
modelled from its documented semantics): an empty input array yields NaN
(`none`); otherwise the array is sorted ascending and the score is the linear
interpolation at fractional rank `per / 100 * (n - 1)`. -/
def scoreatpercentile (a : List ℚ) (per : ℚ) : Option ℚ :=
  if a = [] then none
  else some (interpAt (npSortAsc a) (per / 100 * ((a.length : ℚ) - 1)))

/-- PercentileFeatureExtractor.extract, translated from
percentile_feature_extractor.py: the z data of the neighborhood points is
scored at each percentile in `range(10, 110, 10)`. -/
def percentileExtract (pc : PointCloud) (nb : List ℕ) : List (Option ℚ) :=
  let z := nb.map pc.z
  (List.range' 10 10 10).map (fun p => scoreatpercentile z (p : ℚ))

/-- Width of the dense packed array for a batch of neighborhoods: the largest
neighborhood cardinality (max_neighborhood_size of the spec). -/
def batchK (nbs : List (List ℕ)) : ℕ :=
  (nbs.map List.length).foldr max 0

/-- Positions of the neighborhood points, looked up in the source cloud
(the get_point accessor of laserchicken.utils, modelled from the spec as the
index-aligned position lookup). -/
def neighborhoodPoints (pc : PointCloud) (nb : List ℕ) : List Point3 :=
  nb.map pc.pos

/-- Zero position, the lookup default for the packed representation. -/
def ptZero : Point3 :=
  fun _ => 0

/-- Modelled from the spec: one row of the packed array produced by
get_xyz (laserchicken.utils, not among the sources).  The first
`pts.length` entries along the last axis are the valid coordinates, entries
beyond carry the padding payload `pad` (a known-safe value, 0 at the call
site) and are marked masked. -/
def packedData (pts : List Point3) (pad : ℚ) (j : Fin 3) (k : ℕ) : ℚ :=
  if k < pts.length then (pts.getD k ptZero) j else pad

/-- The valid-entry count of a packed row of width `K` with `len` valid
entries, exactly as _get_cov computes it: `n = xyz.mask.sum * -1 + n_max`
with `K - len` masked entries. -/
def nMasked (K len : ℕ) : ℤ :=
  ((K - len : ℕ) : ℤ) * (-1) + (K : ℤ)

/-- Masked sum along the last axis: numpy masked-array reduction sums the
valid (unmasked) entries only. -/
def maskedColSum (len : ℕ) (f : ℕ → ℚ) : ℚ :=
  ∑ k ∈ Finset.range len, f k

/-- Per-axis masked mean of a packed row: masked sum divided by the
valid-entry count `n` derived from the mask (the `xyz.sum(2) / n` term of
_get_cov). -/
def maskedMean (K len : ℕ) (f : ℕ → ℚ) : ℚ :=
  maskedColSum len f / (nMasked K len : ℚ)

/-- Centered packed row `m = xyz - xyz.sum(2, keepdims=True) / n`: valid
entries are centered on the masked mean; masked entries contribute zero to
the downstream reduction (spec: padding contributes zero after
centering-and-masking, by construction). -/
def centeredEntry (K len : ℕ) (f : ℕ → ℚ) (k : ℕ) : ℚ :=
  if k < len then f k - maskedMean K len f else 0

/-- One neighborhood slice of EigenValueVectorizeFeatureExtractor._get_cov:
the einsum with signature ijk,ilk to ijl accumulates the centered products over the full
padded width `K` and the result is divided by `n - 1`.  For `n ≤ 1` the
numerator vanishes and the engine yields the all-zero covariance the spec
mandates (division by the zero denominator is zero in this model, matching
the required substitution). -/
def covMasked (K : ℕ) (pts : List Point3) (pad : ℚ) (j l : Fin 3) : ℚ :=
  (∑ k ∈ Finset.range K,
      centeredEntry K pts.length (packedData pts pad j) k *
        centeredEntry K pts.length (packedData pts pad l) k) /
    ((nMasked K pts.length : ℚ) - 1)

/-- A 3 × 3 rational matrix, row index first. -/
abbrev Mat3 := Fin 3 → Fin 3 → ℚ

/-- An eigensolver in the calling convention of np.linalg.eig: from a matrix,
a vector of eigenvalues (in no particular order) and a matrix whose column m
is the eigenvector paired with eigenvalue m.  np.linalg.eig is an external
routine with no guaranteed ordering, so the engine is parametrized by it. -/
abbrev EigFn := Mat3 → (Fin 3 → ℚ) × Mat3

/-- Matrix-vector product of a 3 × 3 matrix. -/
def mulVec3 (M : Mat3) (v : Fin 3 → ℚ) (j : Fin 3) : ℚ :=
  M j 0 * v 0 + M j 1 * v 1 + M j 2 * v 2

/-- Column `m` of an eigenvector matrix (numpy pairs eigenvalue `m` with the
column `vecs[:, m]`). -/
def eigCol (vecs : Mat3) (m : Fin 3) : Fin 3 → ℚ :=
  fun j => vecs j m

/-- The pair (vals, vecs) is a legitimate eigendecomposition of `C`: every
column is nonzero and satisfies the eigenvalue equation of its paired
eigenvalue.  Any output of np.linalg.eig satisfies this. -/
def IsEigenDecomp (C : Mat3) (vals : Fin 3 → ℚ) (vecs : Mat3) : Prop :=
  ∀ m : Fin 3,
    (¬ ∀ j : Fin 3, eigCol vecs m j = 0) ∧
      ∀ j : Fin 3, mulVec3 C (eigCol vecs m) j = vals m * eigCol vecs m j

/-- The three entries of an eigenvalue vector as a list. -/
def vec3ToList (v : Fin 3 → ℚ) : List ℚ :=
  [v 0, v 1, v 2]

/-- The vectorized ordering step `np.sort(eigval, axis=1)[:, ::-1]`:
ascending sort, then reversal, giving the eigenvalues in descending order. -/
def npSortDesc3 (v : Fin 3 → ℚ) : List ℚ :=
  (npSortAsc (vec3ToList v)).reverse

/-- The serial ordering step `order = np.argsort(-eigenvalues);
eigenvalues[order]` of EigenValueSerial._structure_tensor, at the level of
the gathered values: sorting the values with the key comparison of the
negated array. -/
def argsortNegGather3 (v : Fin 3 → ℚ) : List ℚ :=
  List.insertionSort (fun a b => -a ≤ -b) (vec3ToList v)

/-- Unit vertical axis `np.array([0., 0., 1.])`. -/
def zUnit : Fin 3 → ℚ :=
  fun j => if j = 2 then 1 else 0

/-- Dot product of two 3-vectors, as `np.dot` on the last axis. -/
def dot3 (a b : Fin 3 → ℚ) : ℚ :=
  a 0 * b 0 + a 1 * b 1 + a 2 * b 2

/-- The seven per-neighborhood output arrays of the vectorized eigen
extractor, in the order of provides(). -/
structure EigenOutputs where
  eigenv_1 : List ℚ
  eigenv_2 : List ℚ
  eigenv_3 : List ℚ
  normal_vector_1 : List ℚ
  normal_vector_2 : List ℚ
  normal_vector_3 : List ℚ
  slope : List ℚ

/-- Intermediate result for one neighborhood inside the vectorized extract:
the descending-sorted eigenvalues of the masked covariance and the normal
vector read off as column 2 of the eigenvector matrix as the solver returned
it (`normals = eigvects[:, :, 2]`, with no reordering of the columns). -/
def eigenResult (eig : EigFn) (pc : PointCloud) (K : ℕ) (nb : List ℕ) :
    List ℚ × (Fin 3 → ℚ) :=
  let pts := neighborhoodPoints pc nb
  let ev := eig (covMasked K pts 0)
  (npSortDesc3 ev.1, eigCol ev.2 2)

/-- EigenValueVectorizeFeatureExtractor.extract translated from
eigenvals_feature_extractor.py for a batch of neighborhoods: pack (get_xyz
with zero padding payload), masked covariance, eigendecomposition, sort the
eigenvalues descending, read the normal as the unsorted column 2, and take
the slope as the dot product of the normal with the vertical axis. -/
def extractEigen (eig : EigFn) (pc : PointCloud) (nbs : List (List ℕ)) :
    EigenOutputs :=
  let res := nbs.map (eigenResult eig pc (batchK nbs))
  { eigenv_1 := res.map (fun r => r.1.getD 0 0)
    eigenv_2 := res.map (fun r => r.1.getD 1 0)
    eigenv_3 := res.map (fun r => r.1.getD 2 0)
    normal_vector_1 := res.map (fun r => r.2 0)
    normal_vector_2 := res.map (fun r => r.2 1)
    normal_vector_3 := res.map (fun r => r.2 2)
    slope := res.map (fun r => dot3 r.2 zUnit) }

/-- Mean of a list of rationals, as used by np.cov. -/
def listMean (l : List ℚ) : ℚ :=
  l.sum / (l.length : ℚ)

/-- The covariance matrix `np.cov(points, rowvar=False)` of the serial
implementation: entry (j, l) is the mean-centered product sum divided by
`n - 1` (numpy default ddof 1). -/
def covSerial (pts : List Point3) (j l : Fin 3) : ℚ :=
  ((pts.map fun p =>
      (p j - listMean (pts.map fun q => q j)) *
        (p l - listMean (pts.map fun q => q l))).sum) /
    ((pts.length : ℚ) - 1)

/-- EigenValueSerial.extract translated from
test_eigenvals_feature_extractor.py: with more than 3 points the descending
eigenvalues of the np.cov covariance, otherwise the `[0, 0, 0]` fallback
that the raised-and-caught ValueError produces. -/
def serialEigenvalues (eig : EigFn) (pc : PointCloud) (nb : List ℕ) : List ℚ :=
  let pts := neighborhoodPoints pc nb
  if 3 < pts.length then argsortNegGather3 (eig (covSerial pts)).1
  else [0, 0, 0]

/-- A point cloud whose attributes are identically zero, for concrete
instantiations. -/
def pcUnit : PointCloud :=
  ⟨fun _ => 0, fun _ => 0, fun _ => 0⟩

/-- A point cloud with constant z attribute 7, for concrete percentile
instantiations. -/
def pcSeven : PointCloud :=
  ⟨fun _ => 0, fun _ => 0, fun _ => 7⟩

/-- The single-point cloud of the repository test
test_eigenvalues_of_too_few_points_results_in_0: one point at (5, 5, 5). -/
def pcSingle : PointCloud :=
  ⟨fun _ => 5, fun _ => 5, fun _ => 5⟩

/-- Four coplanar points (1,0,0), (-1,0,0), (0,2,0), (0,-2,0): their
covariance is diag(2/3, 8/3, 0), a rank-2 plane structure whose true normal
is the vertical axis. -/
def pcPlane : PointCloud :=
  ⟨fun i => if i = 0 then 1 else if i = 1 then -1 else 0,
   fun i => if i = 2 then 2 else if i = 3 then -2 else 0,
   fun _ => 0⟩

/-- Two points (0,0,0) and (2,0,0) on a line: their covariance is
diag(2, 0, 0). -/
def pcLine : PointCloud :=
  ⟨fun i => if i = 1 then 2 else 0, fun _ => 0, fun _ => 0⟩

/-- An eigensolver output for the plane covariance diag(2/3, 8/3, 0) that
lists the eigenvalues in the legal but unsorted order (0, 2/3, 8/3). -/
def valsPlane : Fin 3 → ℚ :=
  fun m => if m = 0 then 0 else if m = 1 then 2 / 3 else 8 / 3

/-- The eigenvector matrix paired with valsPlane: column 0 is e3 (eigenvalue
0), column 1 is e1 (eigenvalue 2/3), column 2 is e2 (eigenvalue 8/3). -/
def vecsPlane : Mat3 :=
  fun j m =>
    if m = 0 then (if j = 2 then 1 else 0)
    else if m = 1 then (if j = 0 then 1 else 0)
    else (if j = 1 then 1 else 0)

/-- An eigensolver that answers with the unsorted plane decomposition; a
legal np.linalg.eig behavior for the input it is used on. -/
def eigUnsorted : EigFn :=
  fun _ => (valsPlane, vecsPlane)

/-- An eigensolver that reads the diagonal as the eigenvalues and answers
the identity eigenvector matrix; a legal np.linalg.eig behavior on diagonal
matrices. -/
def eigDiag : EigFn :=
  fun C => (fun m => C m m, fun j m => if j = m then 1 else 0)

/-- An eigensolver that answers eigenvalues 0 with identity eigenvectors; a
legal np.linalg.eig behavior on the zero matrix. -/
def eigIdentity : EigFn :=
  fun _ => (fun _ => 0, fun j m => if j = m then 1 else 0)

/-- The covariance matrix diag(2, 0, 0) of the two pcLine points. -/
def covLineMat : Mat3 :=
  fun j l => if j = 0 ∧ l = 0 then 2 else 0

/-- The covariance matrix diag(2/3, 8/3, 0) of the four pcPlane points. -/
def covPlaneMat : Mat3 :=
  fun j l => if j = 0 ∧ l = 0 then 2 / 3 else if j = 1 ∧ l = 1 then 8 / 3 else 0

theorem getD_map_of_lt {α β : Type} (f : α → β) (l : List α) {i : ℕ}
    (h : i < l.length) (d : β) :
    (l.map f).getD i d = f (l.get ⟨i, h⟩) := by
  rw [List.getD_eq_getElem?_getD, List.getElem?_map,
    List.getElem?_eq_getElem h]
  rfl

theorem nMasked_of_le {K len : ℕ} (h : len ≤ K) : nMasked K len = len := by
  unfold nMasked
  omega

theorem le_batchK : ∀ (nbs : List (List ℕ)) (nb : List ℕ), nb ∈ nbs →
    nb.length ≤ batchK nbs := by
  intro nbs
  induction nbs with
  | nil => intro nb h; cases h
  | cons a l ih =>
    intro nb h
    rcases List.mem_cons.mp h with h | h
    · subst h
      simp only [batchK, List.map_cons, List.foldr_cons]
      exact le_max_left _ _
    · refine le_trans (ih nb h) ?_
      simp only [batchK, List.map_cons, List.foldr_cons]
      exact le_max_right _ _

theorem sum_range_getD (pts : List Point3) (F : Point3 → ℚ) :
    (∑ k ∈ Finset.range pts.length, F (pts.getD k ptZero)) = (pts.map F).sum := by
  induction pts with
  | nil => simp
  | cons p ps ih =>
    rw [List.length_cons, Finset.sum_range_succ']
    simp only [List.getD_cons_succ, List.getD_cons_zero, ih, List.map_cons,
      List.sum_cons]
    exact add_comm _ _

theorem maskedColSum_packed (pts : List Point3) (pad : ℚ) (j : Fin 3) :
    maskedColSum pts.length (packedData pts pad j) = (pts.map fun p => p j).sum := by
  rw [← sum_range_getD pts fun p => p j]
  unfold maskedColSum packedData
  apply Finset.sum_congr rfl
  intro k hk
  rw [if_pos (Finset.mem_range.mp hk)]

theorem maskedMean_packed {K : ℕ} {pts : List Point3} (pad : ℚ) (j : Fin 3)
    (h : pts.length ≤ K) :
    maskedMean K pts.length (packedData pts pad j) = listMean (pts.map fun p => p j) := by
  unfold maskedMean listMean
  rw [maskedColSum_packed, nMasked_of_le h, List.length_map]
  norm_num

theorem covMasked_eq_covSerial {K : ℕ} {pts : List Point3} (pad : ℚ)
    (h : pts.length ≤ K) (j l : Fin 3) :
    covMasked K pts pad j l = covSerial pts j l := by
  unfold covMasked covSerial
  have hout : ∀ k ∈ Finset.range K, k ∉ Finset.range pts.length →
      centeredEntry K pts.length (packedData pts pad j) k *
        centeredEntry K pts.length (packedData pts pad l) k = 0 := by
    intro k _ hk
    rw [centeredEntry, if_neg (by simpa using hk), zero_mul]
  rw [← Finset.sum_subset (Finset.range_subset.mpr h) hout]
  have hsum : (∑ k ∈ Finset.range pts.length,
      centeredEntry K pts.length (packedData pts pad j) k *
        centeredEntry K pts.length (packedData pts pad l) k)
      = (pts.map fun p =>
          (p j - listMean (pts.map fun q => q j)) *
            (p l - listMean (pts.map fun q => q l))).sum := by
    rw [← sum_range_getD pts fun p =>
      (p j - listMean (pts.map fun q => q j)) *
        (p l - listMean (pts.map fun q => q l))]
    apply Finset.sum_congr rfl
    intro k hk
    have hk' := Finset.mem_range.mp hk
    rw [centeredEntry, if_pos hk', centeredEntry, if_pos hk',
      packedData, if_pos hk', packedData, if_pos hk',
      maskedMean_packed pad j h, maskedMean_packed pad l h]
  rw [hsum, nMasked_of_le h]
  norm_num

theorem covMasked_degenerate {K : ℕ} {pts : List Point3} (pad : ℚ)
    (h1 : pts.length ≤ 1) (h2 : pts.length ≤ K) (j l : Fin 3) :
    covMasked K pts pad j l = 0 := by
  rw [covMasked_eq_covSerial pad h2]
  match pts, h1 with
  | [], _ => simp [covSerial]
  | [p], _ =>
    simp [covSerial, listMean]

theorem npSortDesc3_eq_argsortNegGather3 (v : Fin 3 → ℚ) :
    npSortDesc3 v = argsortNegGather3 v := by
  unfold npSortDesc3 argsortNegGather3 npSortAsc
  haveI ht : IsTotal ℚ fun a b => -a ≤ -b := ⟨fun a b => le_total (-a) (-b)⟩
  haveI htr : IsTrans ℚ fun a b => -a ≤ -b := ⟨fun _ _ _ h1 h2 => le_trans h1 h2⟩
  haveI ha : IsAntisymm ℚ fun a b => -a ≤ -b :=
    ⟨fun _ _ h1 h2 => neg_injective (le_antisymm h1 h2)⟩
  apply List.eq_of_perm_of_sorted (r := fun a b => -a ≤ -b)
  · exact ((List.reverse_perm _).trans
      (List.perm_insertionSort _ _)).trans
      (List.perm_insertionSort _ _).symm
  · rw [List.Sorted, List.pairwise_reverse]
    exact (List.sorted_insertionSort _ _).imp fun hab => by
      simpa using neg_le_neg hab
  · exact List.sorted_insertionSort _ _

theorem eigenvals_of_zero_matrix {C : Mat3} {vals : Fin 3 → ℚ} {vecs : Mat3}
    (hC : ∀ j l : Fin 3, C j l = 0) (h : IsEigenDecomp C vals vecs) :
    ∀ m : Fin 3, vals m = 0 := by
  intro m
  obtain ⟨hnz, heq⟩ := h m
  push_neg at hnz
  obtain ⟨j, hj⟩ := hnz
  have h0 : mulVec3 C (eigCol vecs m) j = 0 := by
    simp [mulVec3, hC]
  rw [heq j] at h0
  rcases mul_eq_zero.mp h0 with h | h
  · exact h
  · exact absurd h hj

theorem npSortDesc3_zero {vals : Fin 3 → ℚ} (h : ∀ m : Fin 3, vals m = 0) :
    npSortDesc3 vals = [0, 0, 0] := by
  have hl : vec3ToList vals = [0, 0, 0] := by
    simp [vec3ToList, h 0, h 1, h 2]
  unfold npSortDesc3 npSortAsc
  rw [hl]
  norm_num [List.insertionSort, List.orderedInsert]

/-- Claim C10: for every (nonempty) batch of neighborhoods, the slope output
of the vectorized eigen extractor equals its normal_vector_3 output
component for component: the dot product of each returned normal with the
unit vertical axis is exactly the z-component of that normal, so the seventh
output array equals the sixth. -/
theorem slope_equals_normal_vector_3 (eig : EigFn) (pc : PointCloud)
    (nbs : List (List ℕ)) (h : nbs ≠ []) :
    (extractEigen eig pc nbs).slope = (extractEigen eig pc nbs).normal_vector_3 := by
  unfold extractEigen
  apply List.map_congr_left
  intro r _
  simp [dot3, zUnit]

/-- Witness for C10 at a concrete one-neighborhood batch. -/
theorem slope_equals_normal_vector_3_witness :
    (extractEigen eigIdentity pcUnit [[0]]).slope
      = (extractEigen eigIdentity pcUnit [[0]]).normal_vector_3 :=
  slope_equals_normal_vector_3 eigIdentity pcUnit [[0]] (by simp)

/-- Claim C4: in the masked covariance computation over a padded batch row of
any width `pts.length + extra`, the per-axis mean is the masked sum of the
valid entries divided by the valid count (not the padded width), the
covariance entry is the mean-centered product sum over the valid entries
divided by `n - 1`, and the padding payload never changes the computed mean
or covariance. -/
theorem masked_mean_and_covariance (pts : List Point3) (extra : ℕ)
    (pad padAlt : ℚ) (j l : Fin 3) :
    maskedMean (pts.length + extra) pts.length (packedData pts pad j)
        = (pts.map fun p => p j).sum / (pts.length : ℚ)
    ∧ covMasked (pts.length + extra) pts pad j l
        = ((pts.map fun p =>
            (p j - listMean (pts.map fun q => q j)) *
              (p l - listMean (pts.map fun q => q l))).sum) /
          ((pts.length : ℚ) - 1)
    ∧ covMasked (pts.length + extra) pts pad j l
        = covMasked (pts.length + extra) pts padAlt j l
    ∧ maskedMean (pts.length + extra) pts.length (packedData pts pad j)
        = maskedMean (pts.length + extra) pts.length (packedData pts padAlt j) := by
  have h : pts.length ≤ pts.length + extra := Nat.le_add_right _ _
  refine ⟨?_, ?_, ?_, ?_⟩
  · rw [maskedMean_packed pad j h]
    unfold listMean
    rw [List.length_map]
  · rw [covMasked_eq_covSerial pad h]
    rfl
  · rw [covMasked_eq_covSerial pad h, covMasked_eq_covSerial padAlt h]
  · rw [maskedMean_packed pad j h, maskedMean_packed padAlt j h]

/-- Claim C7, amended: on an empty cylinder neighborhood (with a valid
cylinder volume and target), the echo-ratio extract neither raises nor
returns a fixed numeric sentinel: it evaluates the division 0 / 0, whose
floating result is NaN, modelled as `Except.ok none`. -/
theorem echo_ratio_empty_neighborhood_nan (pc t : PointCloud) (ti : ℕ) (r : ℚ) :
    echoRatioExtract pc [] (some t) (some ti) (Volume.infiniteCylinder r)
      = Except.ok none := by
  simp [echoRatioExtract, Volume.TYPE, npTrueDiv]

/-- Counterexample to claim C7 as stated: at the concrete empty cylinder
neighborhood the extract call returns `Except.ok none` — the NaN of the
0 / 0 float division — which is neither a raised failure nor a fixed numeric
sentinel value, so no defined policy is followed. -/
theorem echo_ratio_empty_neighborhood_no_policy :
    echoRatioExtract pcUnit [] (some pcUnit) (some 0) (Volume.infiniteCylinder 1)
      = Except.ok none := by
  simp [echoRatioExtract, Volume.TYPE, npTrueDiv]

/-- Claim C9, amended: on an empty neighborhood the percentile extract does
not fail with an invalid-argument error: scipy scoreatpercentile yields NaN
on an empty array, so the extract returns ten NaN values. -/
theorem percentile_empty_returns_nans (pc : PointCloud) :
    percentileExtract pc [] = List.replicate 10 none := by
  simp only [percentileExtract, List.map_nil, scoreatpercentile, if_pos rfl]
  rfl

/-- Counterexample to claim C9 as stated: at the concrete empty neighborhood
the percentile extract returns ten NaN values (`none`) instead of failing
with an invalid-argument error; no failure occurs at all. -/
theorem percentile_empty_no_failure :
    percentileExtract pcUnit [] = List.replicate 10 none := by
  simp only [percentileExtract, List.map_nil, scoreatpercentile, if_pos rfl]
  rfl

/-- Claim C5: for every non-empty cylinder neighborhood of `c` points, with
`s` the number of neighborhood points whose squared Euclidean distance to
the target position is at most radius squared (boundary inclusive, radius
taken from the cylinder volume descriptor), the echo-ratio extract returns
`100 * s / c`; moreover `s ≤ c`. -/
theorem echo_ratio_value (pc : PointCloud) (nb : List ℕ) (t : PointCloud)
    (ti : ℕ) (r : ℚ) (h : nb ≠ []) :
    echoRatioExtract pc nb (some t) (some ti) (Volume.infiniteCylinder r)
        = Except.ok (some (100 *
            ((nb.countP fun k => decide (sqDist (pc.pos k) (t.pos ti) ≤ r ^ 2)) : ℚ) /
              (nb.length : ℚ)))
    ∧ (nb.countP fun k => decide (sqDist (pc.pos k) (t.pos ti) ≤ r ^ 2)) ≤ nb.length := by
  constructor
  · unfold echoRatioExtract
    rw [if_neg (by simp [Volume.TYPE])]
    have hc : ((nb.length : ℚ)) ≠ 0 := by
      simpa using fun hlen => h (List.length_eq_zero.mp hlen)
    simp only [npTrueDiv, if_neg hc, List.countP_eq_length_filter, Volume.radius]
    refine congrArg Except.ok ?_
    show some _ = some _
    refine congrArg some ?_
    ring
  · rw [List.countP_eq_length_filter]
    exact List.length_filter_le _ _

/-- Witness for C5 at a concrete one-point neighborhood: the single
neighborhood point is inside the sphere, so the echo ratio is 100. -/
theorem echo_ratio_value_witness :
    echoRatioExtract pcUnit [0] (some pcUnit) (some 0) (Volume.infiniteCylinder 1)
      = Except.ok (some 100) := by
  have h := (echo_ratio_value pcUnit [0] pcUnit 0 1 (by simp)).1
  rw [h]
  norm_num [List.countP, List.countP.go, sqDist, PointCloud.pos, pcUnit]

/-- Claim C6: the echo-ratio extract raises a ValueError exactly when the
volume type tag is not infinite-cylinder, or the target cloud is omitted, or
the target index is omitted; the error is raised before any feature value is
computed, so it does not depend on the source cloud or the neighborhood; and
when none of the three conditions holds the call does not error. -/
theorem echo_ratio_guard_conditions (pc : PointCloud) (nb : List ℕ)
    (tpc : Option PointCloud) (ti : Option ℕ) (vol : Volume) :
    ((vol.TYPE ≠ "infinite cylinder" ∨ tpc = none ∨ ti = none) ↔
        ∃ msg, echoRatioExtract pc nb tpc ti vol = Except.error msg)
    ∧ (∀ msg, echoRatioExtract pc nb tpc ti vol = Except.error msg →
        ∀ (pcAlt : PointCloud) (nbAlt : List ℕ),
          echoRatioExtract pcAlt nbAlt tpc ti vol = Except.error msg) := by
  rcases vol with r | r <;> rcases tpc with _ | t <;> rcases ti with _ | i <;>
    simp [echoRatioExtract, Volume.TYPE]

/-- Witness for C6: a missing target cloud errors, and a fully valid call
does not. -/
theorem echo_ratio_guard_conditions_witness :
    (∃ msg, echoRatioExtract pcUnit [0] none (some 0) (Volume.infiniteCylinder 1)
        = Except.error msg)
    ∧ ¬ ∃ msg, echoRatioExtract pcUnit [0] (some pcUnit) (some 0)
        (Volume.infiniteCylinder 1) = Except.error msg := by
  constructor
  · exact (echo_ratio_guard_conditions pcUnit [0] none (some 0)
      (Volume.infiniteCylinder 1)).1.mp (Or.inr (Or.inl rfl))
  · intro hex
    have h := (echo_ratio_guard_conditions pcUnit [0] (some pcUnit) (some 0)
      (Volume.infiniteCylinder 1)).1.mpr hex
    rcases h with h | h | h
    · exact h rfl
    · exact Option.noConfusion h
    · exact Option.noConfusion h

/-- Claim C8: for every non-empty neighborhood the percentile extract
returns exactly 10 values; the k-th value (in ascending percentile order) is
the 10 * (k + 1) percentile of the neighborhood z data, computed by linear
interpolation between closest ranks of the ascending-sorted values, and is
an actual number (never NaN); and on a neighborhood of size 1 all ten
values equal the z-coordinate of the single point. -/
theorem percentile_extract_values (pc : PointCloud) (nb : List ℕ) (h : nb ≠ []) :
    (percentileExtract pc nb).length = 10
    ∧ (∀ k : ℕ, k < 10 →
        (percentileExtract pc nb).getD k none
          = some (interpAt (npSortAsc (nb.map pc.z))
              (((10 * (k + 1) : ℕ) : ℚ) / 100 * ((nb.length : ℚ) - 1))))
    ∧ ∀ i0 : ℕ, nb = [i0] →
        percentileExtract pc nb = List.replicate 10 (some (pc.z i0)) := by
  have hz : nb.map pc.z ≠ [] := by
    simpa using h
  refine ⟨?_, ?_, ?_⟩
  · show ((List.range' 10 10 10).map fun p =>
        scoreatpercentile (nb.map pc.z) (p : ℚ)).length = 10
    rw [List.length_map]
    rfl
  · intro k hk
    have hr : List.range' 10 10 10 = [10, 20, 30, 40, 50, 60, 70, 80, 90, 100] := rfl
    unfold percentileExtract
    rw [hr]
    interval_cases k <;>
      simp [scoreatpercentile, hz, List.length_map]
  · intro i0 h0
    subst h0
    norm_num [percentileExtract, scoreatpercentile, interpAt, npSortAsc,
      List.insertionSort, List.orderedInsert, List.replicate]

/-- Witness for C8 at the one-point neighborhood of a constant cloud: all
ten percentiles are 7. -/
theorem percentile_extract_values_witness :
    percentileExtract pcSeven [0] = List.replicate 10 (some 7) := by
  have h := percentile_extract_values pcSeven [0] (by simp)
  simpa [pcSeven] using h.2.2 0 rfl

theorem npSortDesc3_length (v : Fin 3 → ℚ) : (npSortDesc3 v).length = 3 := by
  rw [npSortDesc3, npSortAsc, List.length_reverse, List.length_insertionSort]
  rfl

theorem list_three_getD {l : List ℚ} (h : l.length = 3) :
    [l.getD 0 0, l.getD 1 0, l.getD 2 0] = l := by
  match l, h with
  | [a, b, c], _ => rfl

theorem covLine_eval :
    covMasked (batchK [[0, 1]]) (neighborhoodPoints pcLine [0, 1]) 0 = covLineMat := by
  funext j l
  rw [covMasked_eq_covSerial 0 (by decide)]
  fin_cases j <;> fin_cases l <;>
    norm_num [covSerial, listMean, neighborhoodPoints, pcLine, PointCloud.pos,
      covLineMat, Fin.ext_iff]

theorem covPlane_eval :
    covMasked (batchK [[0, 1, 2, 3]]) (neighborhoodPoints pcPlane [0, 1, 2, 3]) 0
      = covPlaneMat := by
  funext j l
  rw [covMasked_eq_covSerial 0 (by decide)]
  fin_cases j <;> fin_cases l <;>
    norm_num [covSerial, listMean, neighborhoodPoints, pcPlane, PointCloud.pos,
      covPlaneMat, Fin.ext_iff]

/-- Claim C2, amended: for every batch in which every neighborhood has more
than 3 points, the first three outputs of the vectorized extractor at
position i equal the serial single-neighborhood eigenvalue computation on
the i-th neighborhood, for any eigensolver shared by the two paths.  The
restriction to more than 3 points is forced: the serial implementation
answers [0, 0, 0] below that threshold while the vectorized path computes
the true eigenvalues. -/
theorem vectorized_matches_serial_eigenvalues (eig : EigFn) (pc : PointCloud)
    (nbs : List (List ℕ)) (h : ∀ nb ∈ nbs, 3 < nb.length)
    (i : ℕ) (hi : i < nbs.length) :
    [(extractEigen eig pc nbs).eigenv_1.getD i 0,
     (extractEigen eig pc nbs).eigenv_2.getD i 0,
     (extractEigen eig pc nbs).eigenv_3.getD i 0]
      = serialEigenvalues eig pc (nbs.get ⟨i, hi⟩) := by
  have hmem : nbs.get ⟨i, hi⟩ ∈ nbs := List.get_mem nbs i hi
  have hK : (neighborhoodPoints pc (nbs.get ⟨i, hi⟩)).length ≤ batchK nbs := by
    rw [neighborhoodPoints, List.length_map]
    exact le_batchK nbs _ hmem
  have hcov : covMasked (batchK nbs) (neighborhoodPoints pc (nbs.get ⟨i, hi⟩)) 0
      = covSerial (neighborhoodPoints pc (nbs.get ⟨i, hi⟩)) := by
    funext j l
    exact covMasked_eq_covSerial 0 hK j l
  have hgd1 : (extractEigen eig pc nbs).eigenv_1.getD i 0
      = ((eigenResult eig pc (batchK nbs) (nbs.get ⟨i, hi⟩)).1).getD 0 0 := by
    simp only [extractEigen, List.map_map]
    rw [getD_map_of_lt _ _ hi]
    rfl
  have hgd2 : (extractEigen eig pc nbs).eigenv_2.getD i 0
      = ((eigenResult eig pc (batchK nbs) (nbs.get ⟨i, hi⟩)).1).getD 1 0 := by
    simp only [extractEigen, List.map_map]
    rw [getD_map_of_lt _ _ hi]
    rfl
  have hgd3 : (extractEigen eig pc nbs).eigenv_3.getD i 0
      = ((eigenResult eig pc (batchK nbs) (nbs.get ⟨i, hi⟩)).1).getD 2 0 := by
    simp only [extractEigen, List.map_map]
    rw [getD_map_of_lt _ _ hi]
    rfl
  rw [hgd1, hgd2, hgd3]
  simp only [eigenResult, serialEigenvalues]
  rw [hcov, if_pos (by rw [neighborhoodPoints, List.length_map]; exact h _ hmem),
    ← npSortDesc3_eq_argsortNegGather3]
  exact list_three_getD (npSortDesc3_length _)

/-- Witness for the amended C2 at a concrete 4-point neighborhood with a
diagonal-reading eigensolver. -/
theorem vectorized_matches_serial_eigenvalues_witness :
    [(extractEigen eigDiag pcPlane [[0, 1, 2, 3]]).eigenv_1.getD 0 0,
     (extractEigen eigDiag pcPlane [[0, 1, 2, 3]]).eigenv_2.getD 0 0,
     (extractEigen eigDiag pcPlane [[0, 1, 2, 3]]).eigenv_3.getD 0 0]
      = serialEigenvalues eigDiag pcPlane [0, 1, 2, 3] :=
  vectorized_matches_serial_eigenvalues eigDiag pcPlane [[0, 1, 2, 3]]
    (by decide) 0 (by decide)

/-- Counterexample to claim C2 as stated: on a neighborhood of only 2 points,
with a legitimate eigendecomposition of its covariance diag(2, 0, 0), the
vectorized extractor reports largest eigenvalue 2 while the serial
implementation (which refuses neighborhoods of at most 3 points and answers
[0, 0, 0]) reports 0. -/
theorem vectorized_serial_disagreement :
    IsEigenDecomp covLineMat (eigDiag covLineMat).1 (eigDiag covLineMat).2
    ∧ covMasked (batchK [[0, 1]]) (neighborhoodPoints pcLine [0, 1]) 0 = covLineMat
    ∧ (extractEigen eigDiag pcLine [[0, 1]]).eigenv_1 = [2]
    ∧ serialEigenvalues eigDiag pcLine [0, 1] = [0, 0, 0]
    ∧ (2 : ℚ) ≠ 0 := by
  refine ⟨?_, covLine_eval, ?_, ?_, by norm_num⟩
  · intro m
    constructor
    · intro hall
      have hm := hall m
      simp [eigDiag, eigCol] at hm
    · intro j
      fin_cases m <;> fin_cases j <;>
        norm_num [eigDiag, eigCol, mulVec3, covLineMat, Fin.ext_iff]
  · simp only [extractEigen, eigenResult, List.map_cons, List.map_nil]
    rw [covLine_eval]
    norm_num [eigDiag, covLineMat, npSortDesc3, npSortAsc, vec3ToList,
      List.insertionSort, List.orderedInsert, Fin.ext_iff]
  · norm_num [serialEigenvalues, neighborhoodPoints]

/-- Claim C1, evaluated at the failing input: on the 4-point planar batch
with covariance diag(2/3, 8/3, 0) and a legitimate eigensolver output that
lists the eigenvalues in the order (0, 2/3, 8/3), the extractor does return
the eigenvalues sorted descending (8/3, 2/3, 0), but the returned normal is
(0, 1, 0) — the eigenvector the solver listed third, which belongs to the
largest eigenvalue 8/3 — and is not an eigenvector of the smallest
eigenvalue 0, because the code never reorders the eigenvector columns by
the sorted eigenvalues. -/
theorem eigen_normal_is_unsorted_third_column :
    covMasked (batchK [[0, 1, 2, 3]]) (neighborhoodPoints pcPlane [0, 1, 2, 3]) 0
      = covPlaneMat
    ∧ IsEigenDecomp covPlaneMat valsPlane vecsPlane
    ∧ eigUnsorted covPlaneMat = (valsPlane, vecsPlane)
    ∧ (extractEigen eigUnsorted pcPlane [[0, 1, 2, 3]]).eigenv_1 = [8 / 3]
    ∧ (extractEigen eigUnsorted pcPlane [[0, 1, 2, 3]]).eigenv_2 = [2 / 3]
    ∧ (extractEigen eigUnsorted pcPlane [[0, 1, 2, 3]]).eigenv_3 = [0]
    ∧ (extractEigen eigUnsorted pcPlane [[0, 1, 2, 3]]).normal_vector_1 = [0]
    ∧ (extractEigen eigUnsorted pcPlane [[0, 1, 2, 3]]).normal_vector_2 = [1]
    ∧ (extractEigen eigUnsorted pcPlane [[0, 1, 2, 3]]).normal_vector_3 = [0]
    ∧ ¬ (∀ j : Fin 3,
          mulVec3 covPlaneMat (eigCol vecsPlane 2) j = 0 * eigCol vecsPlane 2 j) := by
  refine ⟨covPlane_eval, ?_, rfl, ?_, ?_, ?_, ?_, ?_, ?_, ?_⟩
  · intro m
    refine ⟨?_, ?_⟩
    · intro hall
      fin_cases m
      · simpa [vecsPlane, eigCol, Fin.ext_iff] using hall 2
      · simpa [vecsPlane, eigCol, Fin.ext_iff] using hall 0
      · simpa [vecsPlane, eigCol, Fin.ext_iff] using hall 1
    · intro j
      fin_cases m <;> fin_cases j <;>
        norm_num [mulVec3, covPlaneMat, vecsPlane, eigCol, valsPlane, Fin.ext_iff]
  · simp only [extractEigen, eigenResult, List.map_cons, List.map_nil]
    rw [covPlane_eval]
    norm_num [eigUnsorted, valsPlane, npSortDesc3, npSortAsc, vec3ToList,
      List.insertionSort, List.orderedInsert, Fin.ext_iff]
  · simp only [extractEigen, eigenResult, List.map_cons, List.map_nil]
    rw [covPlane_eval]
    norm_num [eigUnsorted, valsPlane, npSortDesc3, npSortAsc, vec3ToList,
      List.insertionSort, List.orderedInsert, Fin.ext_iff]
  · simp only [extractEigen, eigenResult, List.map_cons, List.map_nil]
    rw [covPlane_eval]
    norm_num [eigUnsorted, valsPlane, npSortDesc3, npSortAsc, vec3ToList,
      List.insertionSort, List.orderedInsert, Fin.ext_iff]
  · simp only [extractEigen, eigenResult, List.map_cons, List.map_nil]
    rw [covPlane_eval]
    norm_num [eigUnsorted, vecsPlane, eigCol, Fin.ext_iff]
  · simp only [extractEigen, eigenResult, List.map_cons, List.map_nil]
    rw [covPlane_eval]
    norm_num [eigUnsorted, vecsPlane, eigCol, Fin.ext_iff]
  · simp only [extractEigen, eigenResult, List.map_cons, List.map_nil]
    rw [covPlane_eval]
    norm_num [eigUnsorted, vecsPlane, eigCol, Fin.ext_iff]
  · intro hall
    have h1 := hall 1
    norm_num [mulVec3, covPlaneMat, vecsPlane, eigCol, Fin.ext_iff] at h1

/-- Claim C3, amended: for every neighborhood of a batch with at most 1
valid point, the masked covariance is the all-zero matrix and the extractor
returns exactly 0 for all three eigenvalues of that neighborhood — totally,
without failing the other neighborhoods of the batch — but the returned
normal components are the third eigenvector column the solver reported for
the zero matrix, which is a nonzero vector, not (0, 0, 0). -/
theorem degenerate_neighborhood_zero_eigenvalues (eig : EigFn) (pc : PointCloud)
    (nbs : List (List ℕ)) (i : ℕ) (hi : i < nbs.length)
    (hlen : (nbs.get ⟨i, hi⟩).length ≤ 1)
    (hvalid : IsEigenDecomp
        (covMasked (batchK nbs) (neighborhoodPoints pc (nbs.get ⟨i, hi⟩)) 0)
        (eig (covMasked (batchK nbs) (neighborhoodPoints pc (nbs.get ⟨i, hi⟩)) 0)).1
        (eig (covMasked (batchK nbs) (neighborhoodPoints pc (nbs.get ⟨i, hi⟩)) 0)).2) :
    (∀ j l : Fin 3,
        covMasked (batchK nbs) (neighborhoodPoints pc (nbs.get ⟨i, hi⟩)) 0 j l = 0)
    ∧ (extractEigen eig pc nbs).eigenv_1.getD i 0 = 0
    ∧ (extractEigen eig pc nbs).eigenv_2.getD i 0 = 0
    ∧ (extractEigen eig pc nbs).eigenv_3.getD i 0 = 0
    ∧ ¬ ((extractEigen eig pc nbs).normal_vector_1.getD i 0 = 0
        ∧ (extractEigen eig pc nbs).normal_vector_2.getD i 0 = 0
        ∧ (extractEigen eig pc nbs).normal_vector_3.getD i 0 = 0) := by
  have hmem : nbs.get ⟨i, hi⟩ ∈ nbs := List.get_mem nbs i hi
  have hK : (neighborhoodPoints pc (nbs.get ⟨i, hi⟩)).length ≤ batchK nbs := by
    rw [neighborhoodPoints, List.length_map]
    exact le_batchK nbs _ hmem
  have hlen2 : (neighborhoodPoints pc (nbs.get ⟨i, hi⟩)).length ≤ 1 := by
    rw [neighborhoodPoints, List.length_map]
    exact hlen
  have hcov0 : ∀ j l : Fin 3,
      covMasked (batchK nbs) (neighborhoodPoints pc (nbs.get ⟨i, hi⟩)) 0 j l = 0 :=
    fun j l => covMasked_degenerate 0 hlen2 hK j l
  have hvals := eigenvals_of_zero_matrix hcov0 hvalid
  have hsort : npSortDesc3
      (eig (covMasked (batchK nbs) (neighborhoodPoints pc (nbs.get ⟨i, hi⟩)) 0)).1
      = [0, 0, 0] := npSortDesc3_zero hvals
  have hgd1 : (extractEigen eig pc nbs).eigenv_1.getD i 0
      = ((eigenResult eig pc (batchK nbs) (nbs.get ⟨i, hi⟩)).1).getD 0 0 := by
    simp only [extractEigen, List.map_map]
    rw [getD_map_of_lt _ _ hi]
    rfl
  have hgd2 : (extractEigen eig pc nbs).eigenv_2.getD i 0
      = ((eigenResult eig pc (batchK nbs) (nbs.get ⟨i, hi⟩)).1).getD 1 0 := by
    simp only [extractEigen, List.map_map]
    rw [getD_map_of_lt _ _ hi]
    rfl
  have hgd3 : (extractEigen eig pc nbs).eigenv_3.getD i 0
      = ((eigenResult eig pc (batchK nbs) (nbs.get ⟨i, hi⟩)).1).getD 2 0 := by
    simp only [extractEigen, List.map_map]
    rw [getD_map_of_lt _ _ hi]
    rfl
  have hres : (eigenResult eig pc (batchK nbs) (nbs.get ⟨i, hi⟩)).1 = [0, 0, 0] := by
    simp only [eigenResult]
    exact hsort
  refine ⟨hcov0, ?_, ?_, ?_, ?_⟩
  · rw [hgd1, hres]
    rfl
  · rw [hgd2, hres]
    rfl
  · rw [hgd3, hres]
    rfl
  · intro hzero
    obtain ⟨hnz, _⟩ := hvalid 2
    apply hnz
    intro j
    have h1 : (extractEigen eig pc nbs).normal_vector_1.getD i 0
        = (eigenResult eig pc (batchK nbs) (nbs.get ⟨i, hi⟩)).2 0 := by
      simp only [extractEigen, List.map_map]
      rw [getD_map_of_lt _ _ hi]
      rfl
    have h2 : (extractEigen eig pc nbs).normal_vector_2.getD i 0
        = (eigenResult eig pc (batchK nbs) (nbs.get ⟨i, hi⟩)).2 1 := by
      simp only [extractEigen, List.map_map]
      rw [getD_map_of_lt _ _ hi]
      rfl
    have h3 : (extractEigen eig pc nbs).normal_vector_3.getD i 0
        = (eigenResult eig pc (batchK nbs) (nbs.get ⟨i, hi⟩)).2 2 := by
      simp only [extractEigen, List.map_map]
      rw [getD_map_of_lt _ _ hi]
      rfl
    rw [h1] at hzero
    rw [h2] at hzero
    rw [h3] at hzero
    fin_cases j
    · exact hzero.1
    · exact hzero.2.1
    · exact hzero.2.2

theorem eigIdentity_valid_on_single :
    IsEigenDecomp (covMasked (batchK [[0]]) (neighborhoodPoints pcSingle [0]) 0)
      (eigIdentity (covMasked (batchK [[0]]) (neighborhoodPoints pcSingle [0]) 0)).1
      (eigIdentity (covMasked (batchK [[0]]) (neighborhoodPoints pcSingle [0]) 0)).2 := by
  have hcov : ∀ j l : Fin 3,
      covMasked (batchK [[0]]) (neighborhoodPoints pcSingle [0]) 0 j l = 0 :=
    fun j l => covMasked_degenerate 0 (by decide) (by decide) j l
  intro m
  constructor
  · intro hall
    have hm := hall m
    simp [eigIdentity, eigCol] at hm
  · intro j
    simp [eigIdentity, eigCol, mulVec3, hcov]

/-- Witness for the amended C3 at the concrete single-point neighborhood of
the repository test: eigenvalues are all 0 and the normal components are not
all 0. -/
theorem degenerate_neighborhood_zero_eigenvalues_witness :
    (extractEigen eigIdentity pcSingle [[0]]).eigenv_1.getD 0 0 = 0
    ∧ (extractEigen eigIdentity pcSingle [[0]]).eigenv_2.getD 0 0 = 0
    ∧ (extractEigen eigIdentity pcSingle [[0]]).eigenv_3.getD 0 0 = 0
    ∧ ¬ ((extractEigen eigIdentity pcSingle [[0]]).normal_vector_1.getD 0 0 = 0
        ∧ (extractEigen eigIdentity pcSingle [[0]]).normal_vector_2.getD 0 0 = 0
        ∧ (extractEigen eigIdentity pcSingle [[0]]).normal_vector_3.getD 0 0 = 0) := by
  have h := degenerate_neighborhood_zero_eigenvalues eigIdentity pcSingle [[0]] 0
    (by decide) (by decide) eigIdentity_valid_on_single
  exact ⟨h.2.1, h.2.2.1, h.2.2.2.1, h.2.2.2.2⟩

/-- Counterexample to claim C3 as stated: on a single-point neighborhood the
covariance is the zero matrix; with the legitimate solver output of
eigenvalues 0 and identity eigenvectors, the extractor returns eigenvalues
(0, 0, 0) but normal_vector_3 = 1, so the normal components are not all
exactly 0 as the claim requires. -/
theorem degenerate_neighborhood_normal_unit :
    IsEigenDecomp (covMasked (batchK [[0]]) (neighborhoodPoints pcSingle [0]) 0)
        (eigIdentity (covMasked (batchK [[0]]) (neighborhoodPoints pcSingle [0]) 0)).1
        (eigIdentity (covMasked (batchK [[0]]) (neighborhoodPoints pcSingle [0]) 0)).2
    ∧ (extractEigen eigIdentity pcSingle [[0]]).eigenv_1 = [0]
    ∧ (extractEigen eigIdentity pcSingle [[0]]).eigenv_2 = [0]
    ∧ (extractEigen eigIdentity pcSingle [[0]]).eigenv_3 = [0]
    ∧ (extractEigen eigIdentity pcSingle [[0]]).normal_vector_3 = [1]
    ∧ (1 : ℚ) ≠ 0 := by
  refine ⟨eigIdentity_valid_on_single, ?_, ?_, ?_, ?_, by norm_num⟩ <;>
    · simp only [extractEigen, eigenResult, List.map_cons, List.map_nil]
      norm_num [eigIdentity, eigCol, npSortDesc3, npSortAsc, vec3ToList,
        List.insertionSort, List.orderedInsert, Fin.ext_iff]

end Laserchicken
